import Mathlib

/-!
Verification of the Blog repository's predictive prefetch-and-render subsystem.

The JavaScript sources are shallowly embedded as executable Lean definitions:

* `Blog.Static` — the `StaticPrefetcher` class of `prefetch-static.js`
  (admission queue, bounded concurrency, cache, instant navigation,
  constructor options evaluation).
* `Blog.AP` — the `ArticlePrefetcher` class of `prefetch.js`
  (admission queue without the duplicate-queue-entry guard).
* `Blog.Hover` — the hover-timer schedulers of both classes
  (`scheduleHoverPrefetch` keeps a running timer; `handleMouseEnter`
  clears and restarts it).
* `Blog.Prerender` — the prerender container write of the
  prefetch-and-prerender draft (`prerenderArticle`).
* `Blog.Part3` — the markdown-rendering draft's click handler
  (`hijackClicks`) and its instant-navigation path.

Asynchrony is modelled by an explicit event machine: calling an `async`
method runs its synchronous prefix (everything before the first `await`)
atomically, and the settlement of an awaited fetch is a separate
`complete` event carrying the outcome.  This matches the single-threaded
event-loop semantics of the source: no mutation is split across a
suspension point.
-/

namespace Blog

/-- The `priority` hint passed to `fetch` (`'high'` from hover intent,
`'low'` from viewport visibility). -/
inductive Priority where
  | high
  | low
deriving DecidableEq

/-- `Map.set` on an association list: JavaScript `Map.set` replaces the
value in place when the key is present and appends otherwise. -/
def mapSet (m : List (String × String)) (k v : String) : List (String × String) :=
  if (m.lookup k).isSome then
    m.map (fun p => if p.1 = k then (k, v) else p)
  else
    m ++ [(k, v)]

namespace Static

/-- The mutable fields of `StaticPrefetcher` that the queue logic touches,
plus the scheduler's view of suspended fetches (`inflight`) and a ghost
log of every `fetch()` invocation (`fetchLog`), in call order.
`prefetched` is the `Set`, `cache` the `Map` (url to html), `queue` the
FIFO pending array, `active` the `activePrefetches` counter and
`maxConcurrent` the configured bound `K`. -/
structure SPState where
  maxConcurrent : Nat
  prefetched : List String
  cache : List (String × String)
  queue : List String
  active : Nat
  inflight : List String
  fetchLog : List (String × Priority)
deriving DecidableEq

/-- Initial state built by the constructor body (empty set, empty map,
empty queue, zero active). -/
def initState (K : Nat) : SPState :=
  { maxConcurrent := K, prefetched := [], cache := [], queue := [],
    active := 0, inflight := [], fetchLog := [] }

/-- Synchronous prefix of `StaticPrefetcher.prefetch(url, priority)`:
the guards `prefetched.has`, `cache.has`, the capacity check with the
`includes`-guarded queue push, and on admission the increment of
`activePrefetches`, the `prefetched.add` and the start of the `fetch`
(which then suspends; its settlement is the `complete` transition). -/
def prefetch (s : SPState) (url : String) (priority : Priority) : SPState :=
  if url ∈ s.prefetched then s
  else if (s.cache.lookup url).isSome then s
  else if s.maxConcurrent ≤ s.active then
    if url ∈ s.queue then s
    else { s with queue := s.queue ++ [url] }
  else
    { s with
      active := s.active + 1,
      prefetched := url :: s.prefetched,
      inflight := s.inflight ++ [url],
      fetchLog := s.fetchLog ++ [(url, priority)] }

/-- `StaticPrefetcher.processQueue`: if the pending list is nonempty and
capacity allows, shift the head and re-issue it through `prefetch`
(with the default `'high'` priority, as in the source). -/
def processQueue (s : SPState) : SPState :=
  match s.queue with
  | [] => s
  | url :: rest =>
    if s.maxConcurrent ≤ s.active then s
    else prefetch { s with queue := rest } url Priority.high

/-- The state right after the `finally` block's decrement of
`activePrefetches` on settlement of the fetch for `url`, before the
queue-drain attempt.  `result = some html` is the success path
(`cache.set`); `result = none` is the catch block (`prefetched.delete`). -/
def completeMid (s : SPState) (url : String) (result : Option String) : SPState :=
  match result with
  | some html =>
    { s with cache := mapSet s.cache url html,
             active := s.active - 1, inflight := s.inflight.erase url }
  | none =>
    { s with prefetched := s.prefetched.erase url,
             active := s.active - 1, inflight := s.inflight.erase url }

/-- Settlement of an admitted fetch for `url`: the catch block on
failure, then the finally block (decrement and a `processQueue` drain
attempt), in both the success and the failure case.  A settlement for a
url that is not in flight never arises in the event loop and is
modelled as a no-op. -/
def complete (s : SPState) (url : String) (result : Option String) : SPState :=
  if url ∈ s.inflight then processQueue (completeMid s url result) else s

/-- Events of the static prefetcher's event loop: an external request
(from hover, visibility or the public API) and the settlement of an
admitted fetch. -/
inductive Event where
  | request (url : String) (priority : Priority)
  | complete (url : String) (result : Option String)
deriving DecidableEq

/-- One event-loop dispatch. -/
def step (s : SPState) (e : Event) : SPState :=
  match e with
  | .request url priority => prefetch s url priority
  | .complete url result => complete s url result

/-- Run the machine from the freshly constructed state. -/
def run (K : Nat) (tr : List Event) : SPState :=
  tr.foldl step (initState K)

/-- State well-formedness maintained by every reachable state of the
static prefetcher (all clauses are bounded, hence decidable). -/
def Inv (s : SPState) : Prop :=
  s.active = s.inflight.length ∧
  s.active ≤ s.maxConcurrent ∧
  s.inflight.Nodup ∧
  s.prefetched.Nodup ∧
  s.queue.Nodup ∧
  (∀ u ∈ s.inflight, u ∈ s.prefetched) ∧
  (∀ u ∈ s.inflight, s.cache.lookup u = none) ∧
  (∀ p ∈ s.cache, p.1 ∈ s.prefetched)

instance (s : SPState) : Decidable (Inv s) := by
  unfold Inv; infer_instance

/-- A cached response as `navigate` consumes it: the parsed document's
`<main>` element (if any) and its title. -/
structure CachedDoc where
  docMain : Option String
  docTitle : String
deriving DecidableEq

/-- The page `navigate` mutates: the current `<main>` content, the
document title, the history stack (`pushState` appends), a
scrolled-to-top flag and `window.location.href` (assigned only on the
uncached fallback, triggering a full load). -/
structure Page where
  mainContent : Option String
  title : String
  historyStack : List String
  scrolledTop : Bool
  location : Option String
deriving DecidableEq

/-- Outcome of one `navigate(url)` call: the updated page, the list of
`fetch()` calls the method itself performed, and the number of `await`
suspension points it went through. -/
structure NavResult where
  page : Page
  fetchCalls : List String
  awaited : Nat
deriving DecidableEq

/-- `StaticPrefetcher.navigate(url)`.  On a cache hit it extracts the
cached document's `<main>`, and when both it and the live `<main>`
exist it swaps the content, sets the title, pushes a history entry and
scrolls to top — all synchronously (`navigate` is not `async` and
performs no fetch).  On a miss it assigns `window.location.href`
(a full page load, not a `fetch` call from this method). -/
def navigate (cache : List (String × CachedDoc)) (page : Page) (url : String) :
    NavResult :=
  match cache.lookup url with
  | some cached =>
    match cached.docMain, page.mainContent with
    | some newMain, some _ =>
      let page' :=
        { page with
          mainContent := some newMain,
          title := cached.docTitle,
          historyStack := page.historyStack ++ [url],
          scrolledTop := true }
      { page := page', fetchCalls := [], awaited := 0 }
    | _, _ => { page := page, fetchCalls := [], awaited := 0 }
  | none =>
    { page := { page with location := some url }, fetchCalls := [], awaited := 0 }

/-- A JavaScript runtime error: reading an undeclared identifier in a
classic script raises `ReferenceError`. -/
inductive JsError where
  | referenceError (name : String)
deriving DecidableEq

/-- The identifiers in scope for the top-level code of
`prefetch-static.js`: the script's own binding (`StaticPrefetcher`) and
the browser globals the file references.  No declaration anywhere in
the repository introduces `tre`. -/
def pageGlobals : List String :=
  ["StaticPrefetcher", "window", "document", "navigator", "console",
   "fetch", "DOMParser", "performance", "setTimeout", "clearTimeout",
   "Date", "IntersectionObserver", "Array", "Set", "Map", "Promise",
   "Error", "module"]

/-- Evaluating an identifier against the scope chain: a name bound
nowhere raises `ReferenceError`.  (The bound value itself is not
modelled: under this file's scope the lookup of `tre` never succeeds,
which the constructor theorem establishes.) -/
def evalIdent (globals : List String) (name : String) : Except JsError Unit :=
  if name ∈ globals then .ok () else .error (.referenceError name)

/-- JavaScript `x || d` for an optional numeric option (`undefined` and
`0` are falsy). -/
def jsOrNat (v : Option Nat) (d : Nat) : Nat :=
  match v with
  | some 0 => d
  | some n => n
  | none => d

/-- JavaScript `x || d` for an optional boolean option (`undefined` and
`false` are falsy). -/
def jsOrBool (v : Option Bool) (d : Bool) : Bool :=
  match v with
  | some true => true
  | some false => d
  | none => d

/-- The properties of the constructor's `options` argument that the
options literal reads before it can throw. -/
structure CtorArg where
  hoverDelay : Option Nat
  maxConcurrent : Option Nat
  aggressiveMode : Option Bool
  instantNavigation : Option Bool
deriving DecidableEq

/-- The fields the `this.options` literal would produce if its
evaluation completed. -/
structure CtorOptions where
  hoverDelay : Nat
  maxConcurrent : Nat
  aggressiveMode : Bool
  instantNavigation : Bool
deriving DecidableEq

/-- Evaluation of the object literal assigned to `this.options`, in
source order.  `hoverDelay`, `maxConcurrent` and `aggressiveMode` read
only `options` properties and literals; the `instantNavigation`
initializer (`options.instantNavigation !== tre`) reads
`options.instantNavigation` and then the free identifier `tre`, hitting
the scope chain before the trailing `...options` spread is reached.
The value used for `instantNavigation` on the success path is
irrelevant: with the file's actual scope that path is unreachable. -/
def evalOptionsLiteral (globals : List String) (o : CtorArg) :
    Except JsError CtorOptions := do
  let hoverDelay := jsOrNat o.hoverDelay 20
  let maxConcurrent := jsOrNat o.maxConcurrent 3
  let aggressiveMode := jsOrBool o.aggressiveMode true
  let _ ← evalIdent globals "tre"
  pure { hoverDelay := hoverDelay, maxConcurrent := maxConcurrent,
         aggressiveMode := aggressiveMode,
         instantNavigation := o.instantNavigation.getD true }

/-- `new StaticPrefetcher(options)`: the first constructor statement
evaluates the options literal; only if that succeeds are the remaining
fields (`prefetched`, `cache`, `hoverTimers`, `prefetchQueue`,
`activePrefetches`) initialized and `init()` run. -/
def construct (globals : List String) (o : CtorArg) : Except JsError SPState :=
  match evalOptionsLiteral globals o with
  | .error e => .error e
  | .ok opts => .ok (initState opts.maxConcurrent)

end Static

namespace AP

/-- The mutable fields of `ArticlePrefetcher` (`prefetch.js`) that its
queue logic touches, plus the scheduler's view of suspended prefetch
operations (`inflight`) and a ghost log of started prefetch operations
(`fetchLog`), in start order.  This class keeps no html cache: success
leaves only the `prefetchedUrls` mark. -/
structure APState where
  maxConcurrent : Nat
  prefetchedUrls : List String
  queue : List String
  active : Nat
  inflight : List String
  fetchLog : List String
deriving DecidableEq

/-- State built by the `ArticlePrefetcher` constructor body. -/
def initState (K : Nat) : APState :=
  { maxConcurrent := K, prefetchedUrls := [], queue := [],
    active := 0, inflight := [], fetchLog := [] }

/-- Synchronous prefix of `ArticlePrefetcher.prefetchArticle(slug)`:
the `prefetchedUrls` guard, the capacity check — whose queue push has
no duplicate guard (`this.prefetchQueue.push(slug)` unconditionally) —
and on admission the counter increment, the `prefetchedUrls.add` and
the start of the prefetch operation. -/
def prefetchArticle (s : APState) (slug : String) : APState :=
  if slug ∈ s.prefetchedUrls then s
  else if s.maxConcurrent ≤ s.active then
    { s with queue := s.queue ++ [slug] }
  else
    { s with
      active := s.active + 1,
      prefetchedUrls := slug :: s.prefetchedUrls,
      inflight := s.inflight ++ [slug],
      fetchLog := s.fetchLog ++ [slug] }

/-- `ArticlePrefetcher.processQueue`: shift the head and re-issue it
when capacity allows. -/
def processQueue (s : APState) : APState :=
  match s.queue with
  | [] => s
  | slug :: rest =>
    if s.maxConcurrent ≤ s.active then s
    else prefetchArticle { s with queue := rest } slug

/-- Settlement of a started prefetch for `slug`: the catch block on
failure (`prefetchedUrls.delete`), then the finally block (decrement
and drain attempt). -/
def complete (s : APState) (slug : String) (ok : Bool) : APState :=
  if slug ∈ s.inflight then
    if ok then
      processQueue
        { s with active := s.active - 1, inflight := s.inflight.erase slug }
    else
      processQueue
        { s with prefetchedUrls := s.prefetchedUrls.erase slug,
                 active := s.active - 1, inflight := s.inflight.erase slug }
  else s

/-- Events of the article prefetcher's event loop. -/
inductive Event where
  | request (slug : String)
  | complete (slug : String) (ok : Bool)
deriving DecidableEq

/-- One event-loop dispatch. -/
def step (s : APState) (e : Event) : APState :=
  match e with
  | .request slug => prefetchArticle s slug
  | .complete slug ok => complete s slug ok

/-- Run the machine from the freshly constructed state. -/
def run (K : Nat) (tr : List Event) : APState :=
  tr.foldl step (initState K)

end AP

namespace Hover

/-- The hover scheduler's state: the configured delay, the current
time, the live timer handles (`hoverTimers`, identifier to absolute
fire deadline) and a ghost log of the prefetch calls made by fired
timer callbacks. -/
structure HState where
  delay : Nat
  now : Nat
  timers : List (String × Nat)
  calls : List String
deriving DecidableEq

/-- Fresh scheduler (empty `hoverTimers`). -/
def initState (delay : Nat) : HState :=
  { delay := delay, now := 0, timers := [], calls := [] }

/-- `StaticPrefetcher.scheduleHoverPrefetch(url)`: if a timer for `url`
is live, return without touching it; otherwise set a timer firing
`delay` from now. -/
def enterKeep (s : HState) (id : String) : HState :=
  if (s.timers.lookup id).isSome then s
  else { s with timers := s.timers ++ [(id, s.now + s.delay)] }

/-- `ArticlePrefetcher.handleMouseEnter(slug)`: `clearTimeout` any live
timer for the identifier, then `hoverTimers.set` a fresh one — the
running timer is restarted, not kept. -/
def enterReset (s : HState) (id : String) : HState :=
  if (s.timers.lookup id).isSome then
    { s with timers :=
        s.timers.map (fun p => if p.1 = id then (id, s.now + s.delay) else p) }
  else { s with timers := s.timers ++ [(id, s.now + s.delay)] }

/-- The mouseleave handlers of both classes: when a timer for the
identifier is live, `clearTimeout` it and delete the handle; otherwise
do nothing.  A timer that already fired has been deleted by its own
callback, so leave never undoes a made prefetch call. -/
def leave (s : HState) (id : String) : HState :=
  if (s.timers.lookup id).isSome then
    { s with timers := s.timers.eraseP (fun p => p.1 == id) }
  else s

/-- One unit of time passing: the event loop fires every timer whose
deadline has been reached; each callback calls `prefetch(id)` and
deletes its own handle. -/
def tick (s : HState) : HState :=
  { s with now := s.now + 1,
           timers := s.timers.filter (fun p => !decide (p.2 ≤ s.now + 1)),
           calls := s.calls ++
             (s.timers.filter (fun p => decide (p.2 ≤ s.now + 1))).map Prod.fst }

/-- Hover scheduler events. -/
inductive HEvent where
  | enter (id : String)
  | leave (id : String)
  | tick
deriving DecidableEq

/-- Dispatch for the static prefetcher's hover scheduler. -/
def stepKeep (s : HState) (e : HEvent) : HState :=
  match e with
  | .enter id => enterKeep s id
  | .leave id => leave s id
  | .tick => tick s

/-- Dispatch for the article prefetcher's hover scheduler. -/
def stepReset (s : HState) (e : HEvent) : HState :=
  match e with
  | .enter id => enterReset s id
  | .leave id => leave s id
  | .tick => tick s

/-- Run the static prefetcher's hover scheduler. -/
def runKeep (delay : Nat) (tr : List HEvent) : HState :=
  tr.foldl stepKeep (initState delay)

/-- Run the article prefetcher's hover scheduler. -/
def runReset (delay : Nat) (tr : List HEvent) : HState :=
  tr.foldl stepReset (initState delay)

/-- `k` units of time passing. -/
def ticks (k : Nat) : List HEvent :=
  List.replicate k HEvent.tick

end Hover

namespace Prerender

/-- `ArticlePrefetcher.prerenderArticle(slug, htmlContent)` of the
prefetch-and-prerender draft, acting on the hidden container modelled
as an association list from `data-slug` to wrapper content: an existing
wrapper for the slug is removed (`old.remove()`), then a fresh wrapper
holding `htmlContent` is appended. -/
def prerenderArticle (container : List (String × String)) (slug htmlContent : String) :
    List (String × String) :=
  (container.eraseP (fun p => p.1 == slug)) ++ [(slug, htmlContent)]

/-- `getPrerendered(slug)`: the first wrapper matching the slug. -/
def getPrerendered (container : List (String × String)) (slug : String) :
    Option String :=
  container.lookup slug

end Prerender

namespace Part3

/-- Observable outcome of one dispatch of the `hijackClicks` click
handler of the markdown-rendering draft, in its
`window.ArticleNavigator` branch: the `fetch()` calls the handler
performs itself, the number of `await` suspension points it goes
through, the url pushed with `history.pushState`, whether the html
cache was hit, and whether the uncached fallback delegated to
`ArticleNavigator.loadArticle`. -/
structure ClickResult where
  fetchCalls : List String
  awaited : Nat
  pushedHistory : Option String
  usedCache : Bool
  loadArticleCalled : Bool
deriving DecidableEq

/-- The click handler for a card with the given slug: it always
`await`s `navigator.init()`; on a cache hit it additionally `await`s
`fetch('./articles/<slug>/metadata.json')` and `await`s `.json()`,
then renders the cached html and pushes history; on a miss it `await`s
`navigator.loadArticle(slug)` and pushes history. -/
def hijackClick (htmlCache : List (String × String)) (slug : String) : ClickResult :=
  if (htmlCache.lookup slug).isSome then
    { fetchCalls := ["./articles/" ++ slug ++ "/metadata.json"],
      awaited := 3,
      pushedHistory := some ("?article=" ++ slug),
      usedCache := true,
      loadArticleCalled := false }
  else
    { fetchCalls := [],
      awaited := 2,
      pushedHistory := some ("?article=" ++ slug),
      usedCache := false,
      loadArticleCalled := true }

end Part3

/-- The `navigator.connection` record: the save-data flag and the
effective connection quality tier (`'slow-2g'`, `'2g'`, `'3g'`,
`'4g'`). -/
structure Connection where
  saveData : Bool
  effectiveType : String
deriving DecidableEq

/-- `checkConnection()`, written identically in `prefetch-static.js`,
`prefetch.js` and both drafts: a missing `navigator.connection`
defaults to `true`; otherwise save-data and the two lowest effective
tiers veto prefetching.  The function only reads the environment — the
single call site stores its result in `this.shouldPrefetch` once at
construction. -/
def checkConnection (conn : Option Connection) : Bool :=
  match conn with
  | none => true
  | some c =>
    if c.saveData then false
    else if c.effectiveType = "slow-2g" ∨ c.effectiveType = "2g" then false
    else true

/-- The admission count never exceeds the configured bound, a request
arriving at capacity is deferred (or dropped as a duplicate) without
touching the in-flight operations, and every settlement decrements the
counter and then attempts exactly one queue drain. -/
def deferAtCapacity (s : Static.SPState) : Prop :=
  ∀ url p, s.maxConcurrent ≤ s.active →
    (Static.prefetch s url p).active = s.active ∧
    (Static.prefetch s url p).inflight = s.inflight ∧
    (Static.prefetch s url p).fetchLog = s.fetchLog ∧
    (url ∉ s.prefetched → s.cache.lookup url = none → url ∉ s.queue →
      (Static.prefetch s url p).queue = s.queue ++ [url])

/-- Every settlement of an in-flight operation decrements the counter
(through the post-decrement state `completeMid`) and then runs the
queue-drain attempt; when capacity results, the drain consumes the
queue head. -/
def decrementAndDrain (s : Static.SPState) : Prop :=
  ∀ url result, url ∈ s.inflight →
    1 ≤ s.active ∧
    (Static.completeMid s url result).active = s.active - 1 ∧
    Static.complete s url result = Static.processQueue (Static.completeMid s url result) ∧
    (s.active - 1 < s.maxConcurrent →
      (Static.complete s url result).queue = s.queue.tail)

/-- The drain admits the oldest pending identifier regardless of the
priority it was requested with: the queue stores bare urls, and the
drained request is re-issued with the default `'high'` priority. -/
def fifoDrain (s : Static.SPState) : Prop :=
  ∀ u rest, s.queue = u :: rest → s.active < s.maxConcurrent →
    Static.processQueue s = Static.prefetch { s with queue := rest } u Priority.high

/-- A request never removes an in-flight operation: it leaves the
in-flight list alone or appends itself. -/
def noPreemption (s : Static.SPState) : Prop :=
  ∀ url p, (Static.prefetch s url p).inflight = s.inflight ∨
    (Static.prefetch s url p).inflight = s.inflight ++ [url]

/-- A request for an identifier that is in flight (in `prefetched`) or
cached is a complete no-op. -/
def requestIdempotent (s : Static.SPState) : Prop :=
  ∀ url p, url ∈ s.prefetched ∨ (s.cache.lookup url).isSome = true →
    Static.prefetch s url p = s

/-- In a static-prefetcher run with no failed settlement for `url`, at
most one fetch for `url` is ever started. -/
def fetchedOnce (K : Nat) (tr : List Static.Event) (url : String) : Prop :=
  ((Static.run K tr).fetchLog.map Prod.fst).count url ≤ 1

/-- In an article-prefetcher run with no failed settlement for `slug`,
at most one prefetch operation for `slug` is ever started. -/
def fetchedOnceAP (K : Nat) (tr : List AP.Event) (slug : String) : Prop :=
  ((AP.run K tr).fetchLog).count slug ≤ 1

/-- At most one live hover timer per identifier. -/
def atMostOneTimer (s : Hover.HState) : Prop :=
  (s.timers.map Prod.fst).Nodup

/-- The static prefetcher's hover-enter is ignored while a timer for the
identifier is live: the state is untouched. -/
def reenterIgnored (s : Hover.HState) : Prop :=
  ∀ id, (s.timers.lookup id).isSome = true → Hover.enterKeep s id = s

/-- The article prefetcher's hover-enter, arriving while a timer for
the identifier is live, restarts it: the handle's deadline becomes
`now + delay` (the key set is unchanged, so still one handle per
identifier). -/
def reenterRestarts (s : Hover.HState) : Prop :=
  ∀ id, (s.timers.lookup id).isSome = true →
    (Hover.enterReset s id).timers.lookup id = some (s.now + s.delay) ∧
    (Hover.enterReset s id).timers.map Prod.fst = s.timers.map Prod.fst

/-- `navigate(url)` on a cached url performs no fetch and no await, and
when both the cached and the live `<main>` exist it swaps the content,
sets the title, pushes one history entry and scrolls to top. -/
def instantNavCached (cache : List (String × Static.CachedDoc)) (page : Static.Page)
    (url : String) (doc : Static.CachedDoc) : Prop :=
  (Static.navigate cache page url).fetchCalls = [] ∧
  (Static.navigate cache page url).awaited = 0 ∧
  ∀ m pm, doc.docMain = some m → page.mainContent = some pm →
    (Static.navigate cache page url).page =
      { page with mainContent := some m, title := doc.docTitle,
                  historyStack := page.historyStack ++ [url], scrolledTop := true }

/-- The markdown-rendering draft's click handler, on a cache hit, still
performs exactly one metadata fetch and three awaits before rendering
(raw article content is not fetched). -/
def cachedClickFetchesMetadata (hc : List (String × String)) (slug : String) : Prop :=
  Part3.hijackClick hc slug =
    { fetchCalls := ["./articles/" ++ slug ++ "/metadata.json"], awaited := 3,
      pushedHistory := some ("?article=" ++ slug), usedCache := true,
      loadArticleCalled := false }

/-- A cached entry survives every further event unchanged: no event
overwrites or removes it. -/
def entriesImmutable (s : Static.SPState) : Prop :=
  ∀ e v h, s.cache.lookup v = some h → (Static.step s e).cache.lookup v = some h

/-- After a failed settlement for an identifier that is in flight and
not also pending, the identifier is neither cached nor marked
prefetched, and a later request at available capacity starts a fresh
fetch for it. -/
def failureRecovery (s : Static.SPState) : Prop :=
  ∀ url, url ∈ s.inflight → url ∉ s.queue →
    url ∉ (Static.complete s url none).prefetched ∧
    (Static.complete s url none).cache.lookup url = none ∧
    (∀ p, (Static.complete s url none).active < s.maxConcurrent →
      (Static.prefetch (Static.complete s url none) url p).fetchLog
        = (Static.complete s url none).fetchLog ++ [(url, p)])

/-- Enter, wait less than the delay, leave: the identifier's prefetch
is never called, in both hover schedulers, whatever happens later
(short of a fresh enter). -/
def hoverCancelled (delay k : Nat) (u : String) (rest : List Hover.HEvent) : Prop :=
  u ∉ (Hover.runKeep delay
        (Hover.HEvent.enter u :: (Hover.ticks k ++ Hover.HEvent.leave u :: rest))).calls ∧
  u ∉ (Hover.runReset delay
        (Hover.HEvent.enter u :: (Hover.ticks k ++ Hover.HEvent.leave u :: rest))).calls

/-- Once the delay fully elapses the prefetch fires exactly once, and a
later leave does not undo it — indeed no leave event ever modifies the
call log. -/
def hoverFiredUndisturbed (delay : Nat) (u : String) : Prop :=
  (Hover.runKeep delay
    (Hover.HEvent.enter u :: (Hover.ticks delay ++ [Hover.HEvent.leave u]))).calls = [u] ∧
  (Hover.runReset delay
    (Hover.HEvent.enter u :: (Hover.ticks delay ++ [Hover.HEvent.leave u]))).calls = [u] ∧
  ∀ s id, (Hover.stepKeep s (Hover.HEvent.leave id)).calls = s.calls ∧
    (Hover.stepReset s (Hover.HEvent.leave id)).calls = s.calls

/-- A predicate preserved by every step taken on events satisfying `Q`
holds after folding any trace of such events. -/
theorem foldl_pred {σ ε : Type} (f : σ → ε → σ) (P : σ → Prop) (Q : ε → Prop) :
    ∀ (tr : List ε) (s : σ), P s → (∀ e ∈ tr, Q e) →
      (∀ s e, Q e → P s → P (f s e)) → P (tr.foldl f s) := by
  intro tr
  induction tr with
  | nil => intro s hP _ _; exact hP
  | cons e rest ih =>
    intro s hP hQ hstep
    simp only [List.foldl_cons]
    exact ih (f s e) (hstep s e (hQ e (by simp)) hP)
      (fun e' he' => hQ e' (by simp [he'])) hstep

/-- `List.lookup` returns `none` exactly when no pair carries the key. -/
theorem lookup_eq_none_iff {β : Type} (m : List (String × β)) (k : String) :
    m.lookup k = none ↔ ∀ p ∈ m, p.1 ≠ k := by
  induction m with
  | nil => simp
  | cons p rest ih =>
    obtain ⟨a, b⟩ := p
    by_cases hk : k = a
    · subst hk; simp [List.lookup]
    · simp [List.lookup, beq_false_of_ne hk, ih, Ne.symm hk]

/-- `List.lookup` over an append skips a block that lacks the key. -/
theorem lookup_append_of_none {β : Type} (m m' : List (String × β)) (k : String)
    (h : m.lookup k = none) : (m ++ m').lookup k = m'.lookup k := by
  induction m with
  | nil => simp
  | cons p rest ih =>
    obtain ⟨a, b⟩ := p
    by_cases hk : k = a
    · subst hk; simp [List.lookup] at h
    · simp only [List.cons_append, List.lookup, beq_false_of_ne hk] at h ⊢
      exact ih h

/-- Lookup in a one-entry map. -/
theorem lookup_singleton {β : Type} (a k : String) (b : β) :
    ([(a, b)] : List (String × β)).lookup k = if k = a then some b else none := by
  by_cases hk : k = a
  · subst hk; simp [List.lookup]
  · simp [List.lookup, beq_false_of_ne hk, hk]

/-- On a key that is absent, `Map.set` appends a fresh entry. -/
theorem mapSet_of_none (m : List (String × String)) (k v : String)
    (h : m.lookup k = none) : mapSet m k v = m ++ [(k, v)] := by
  unfold mapSet
  rw [h]
  rfl

namespace Static

theorem initState_inv (K : Nat) : Inv (initState K) := by
  refine ⟨rfl, by simp [initState], ?_, ?_, ?_, ?_, ?_, ?_⟩ <;> simp [initState]

theorem prefetch_inv {s : SPState} (h : Inv s) (url : String) (p : Priority) :
    Inv (prefetch s url p) := by
  obtain ⟨h1, h2, h3, h4, h5, h6, h7, h8⟩ := h
  unfold prefetch
  split_ifs with hpre hc hcap hq
  · exact ⟨h1, h2, h3, h4, h5, h6, h7, h8⟩
  · exact ⟨h1, h2, h3, h4, h5, h6, h7, h8⟩
  · exact ⟨h1, h2, h3, h4, h5, h6, h7, h8⟩
  · refine ⟨h1, h2, h3, h4, ?_, h6, h7, h8⟩
    simp only [List.nodup_append, List.nodup_cons, List.nodup_nil]
    exact ⟨h5, ⟨by simp, trivial⟩, by simpa [List.disjoint_singleton] using hq⟩
  · have hcache : s.cache.lookup url = none := by
      cases hval : s.cache.lookup url with
      | none => rfl
      | some v => exact absurd (by simp [hval]) hc
    have hurl_not_inflight : url ∉ s.inflight := fun hmem => hpre (h6 url hmem)
    refine ⟨?_, ?_, ?_, ?_, ?_, ?_, ?_, ?_⟩
    · show s.active + 1 = (s.inflight ++ [url]).length
      simp [h1]
    · show s.active + 1 ≤ s.maxConcurrent
      omega
    · show (s.inflight ++ [url]).Nodup
      simp only [List.nodup_append, List.nodup_cons, List.nodup_nil]
      exact ⟨h3, ⟨by simp, trivial⟩, by simpa [List.disjoint_singleton] using hurl_not_inflight⟩
    · show (url :: s.prefetched).Nodup
      exact List.nodup_cons.2 ⟨hpre, h4⟩
    · show s.queue.Nodup
      exact h5
    · show ∀ u ∈ s.inflight ++ [url], u ∈ url :: s.prefetched
      intro u hu
      rcases List.mem_append.1 hu with hu | hu
      · exact List.mem_cons_of_mem _ (h6 u hu)
      · simp only [List.mem_singleton] at hu
        subst hu; exact List.mem_cons_self _ _
    · show ∀ u ∈ s.inflight ++ [url], s.cache.lookup u = none
      intro u hu
      rcases List.mem_append.1 hu with hu | hu
      · exact h7 u hu
      · simp only [List.mem_singleton] at hu
        subst hu; exact hcache
    · show ∀ q ∈ s.cache, q.1 ∈ url :: s.prefetched
      intro q hq
      exact List.mem_cons_of_mem _ (h8 q hq)

theorem processQueue_inv {s : SPState} (h : Inv s) : Inv (processQueue s) := by
  unfold processQueue
  cases hq : s.queue with
  | nil => exact h
  | cons url rest =>
    obtain ⟨h1, h2, h3, h4, h5, h6, h7, h8⟩ := h
    split_ifs with hcap
    · exact ⟨h1, h2, h3, h4, h5, h6, h7, h8⟩
    · apply prefetch_inv
      rw [hq] at h5
      exact ⟨h1, h2, h3, h4, (List.nodup_cons.1 h5).2, h6, h7, h8⟩

theorem complete_inv {s : SPState} (h : Inv s) (url : String) (r : Option String) :
    Inv (complete s url r) := by
  unfold complete
  split_ifs with hin
  · obtain ⟨h1, h2, h3, h4, h5, h6, h7, h8⟩ := h
    have hlen : (s.inflight.erase url).length + 1 = s.inflight.length :=
      List.length_erase_add_one hin
    have hurl_cache : s.cache.lookup url = none := h7 url hin
    cases r with
    | some html =>
      apply processQueue_inv
      have hset : mapSet s.cache url html = s.cache ++ [(url, html)] :=
        mapSet_of_none _ _ _ hurl_cache
      refine ⟨?_, ?_, ?_, ?_, ?_, ?_, ?_, ?_⟩
      · show s.active - 1 = (s.inflight.erase url).length
        omega
      · show s.active - 1 ≤ s.maxConcurrent
        omega
      · exact h3.erase url
      · exact h4
      · exact h5
      · show ∀ u ∈ s.inflight.erase url, u ∈ s.prefetched
        intro u hu
        exact h6 u (List.mem_of_mem_erase hu)
      · show ∀ u ∈ s.inflight.erase url, (mapSet s.cache url html).lookup u = none
        intro u hu
        have hu' : u ≠ url ∧ u ∈ s.inflight := (List.Nodup.mem_erase_iff h3).1 hu
        rw [hset, lookup_append_of_none _ _ _ (h7 u hu'.2), lookup_singleton]
        simp [hu'.1]
      · show ∀ p ∈ mapSet s.cache url html, p.1 ∈ s.prefetched
        intro p hp
        rw [hset] at hp
        rcases List.mem_append.1 hp with hp | hp
        · exact h8 p hp
        · simp only [List.mem_singleton] at hp
          subst hp; exact h6 url hin
    | none =>
      apply processQueue_inv
      have hne_url : ∀ p ∈ s.cache, p.1 ≠ url := (lookup_eq_none_iff _ _).1 hurl_cache
      refine ⟨?_, ?_, ?_, ?_, ?_, ?_, ?_, ?_⟩
      · show s.active - 1 = (s.inflight.erase url).length
        omega
      · show s.active - 1 ≤ s.maxConcurrent
        omega
      · exact h3.erase url
      · exact h4.erase url
      · exact h5
      · show ∀ u ∈ s.inflight.erase url, u ∈ s.prefetched.erase url
        intro u hu
        have hu' : u ≠ url ∧ u ∈ s.inflight := (List.Nodup.mem_erase_iff h3).1 hu
        exact (List.mem_erase_of_ne hu'.1).2 (h6 u hu'.2)
      · show ∀ u ∈ s.inflight.erase url, s.cache.lookup u = none
        intro u hu
        exact h7 u (List.mem_of_mem_erase hu)
      · show ∀ p ∈ s.cache, p.1 ∈ s.prefetched.erase url
        intro p hp
        exact (List.mem_erase_of_ne (hne_url p hp)).2 (h8 p hp)
  · exact h

theorem step_inv {s : SPState} (h : Inv s) (e : Event) : Inv (step s e) := by
  cases e with
  | request url p => exact prefetch_inv h url p
  | complete url r => exact complete_inv h url r

theorem run_inv (K : Nat) (tr : List Event) : Inv (run K tr) :=
  foldl_pred step Inv (fun _ => True) tr (initState K) (initState_inv K)
    (fun _ _ => trivial) (fun _ e _ h => step_inv h e)

theorem prefetch_maxConcurrent (s : SPState) (url : String) (p : Priority) :
    (prefetch s url p).maxConcurrent = s.maxConcurrent := by
  unfold prefetch; split_ifs <;> rfl

theorem prefetch_cache (s : SPState) (url : String) (p : Priority) :
    (prefetch s url p).cache = s.cache := by
  unfold prefetch; split_ifs <;> rfl

theorem prefetch_inflight_or (s : SPState) (url : String) (p : Priority) :
    (prefetch s url p).inflight = s.inflight ∨
    (prefetch s url p).inflight = s.inflight ++ [url] := by
  unfold prefetch; split_ifs <;> simp

theorem prefetch_queue_of_lt {s : SPState} (h : s.active < s.maxConcurrent)
    (url : String) (p : Priority) : (prefetch s url p).queue = s.queue := by
  unfold prefetch
  split_ifs with h1 h2 h3 h4
  · rfl
  · rfl
  · rfl
  · exact absurd h (not_lt.mpr h3)
  · rfl

theorem prefetch_admit {s : SPState} {url : String} (h1 : url ∉ s.prefetched)
    (h2 : s.cache.lookup url = none) (h3 : s.active < s.maxConcurrent) (p : Priority) :
    prefetch s url p =
      { s with active := s.active + 1, prefetched := url :: s.prefetched,
               inflight := s.inflight ++ [url],
               fetchLog := s.fetchLog ++ [(url, p)] } := by
  unfold prefetch
  rw [if_neg h1, h2]
  simp [not_le.mpr h3]

theorem processQueue_of_cons {s : SPState} {u : String} {rest : List String}
    (hq : s.queue = u :: rest) (h : s.active < s.maxConcurrent) :
    processQueue s = prefetch { s with queue := rest } u Priority.high := by
  unfold processQueue
  rw [hq]
  simp [not_le.mpr h]

theorem processQueue_queue_tail {s : SPState} (h : s.active < s.maxConcurrent) :
    (processQueue s).queue = s.queue.tail := by
  cases hq : s.queue with
  | nil => simp [processQueue, hq]
  | cons u rest =>
    rw [processQueue_of_cons hq h]
    have h' : ({ s with queue := rest } : SPState).active <
        ({ s with queue := rest } : SPState).maxConcurrent := h
    rw [prefetch_queue_of_lt h']
    rfl

theorem processQueue_cache (s : SPState) : (processQueue s).cache = s.cache := by
  unfold processQueue
  cases hq : s.queue with
  | nil => rfl
  | cons u rest =>
    split_ifs with hcap
    · rfl
    · rw [prefetch_cache]

theorem processQueue_maxConcurrent (s : SPState) :
    (processQueue s).maxConcurrent = s.maxConcurrent := by
  unfold processQueue
  cases hq : s.queue with
  | nil => rfl
  | cons u rest =>
    split_ifs with hcap
    · rfl
    · rw [prefetch_maxConcurrent]

theorem completeMid_maxConcurrent (s : SPState) (url : String) (r : Option String) :
    (completeMid s url r).maxConcurrent = s.maxConcurrent := by
  cases r <;> rfl

theorem complete_maxConcurrent (s : SPState) (url : String) (r : Option String) :
    (complete s url r).maxConcurrent = s.maxConcurrent := by
  unfold complete
  split_ifs with h
  · rw [processQueue_maxConcurrent, completeMid_maxConcurrent]
  · rfl

theorem complete_of_mem {s : SPState} {url : String} (h : url ∈ s.inflight)
    (r : Option String) : complete s url r = processQueue (completeMid s url r) := by
  unfold complete
  rw [if_pos h]

theorem step_maxConcurrent (s : SPState) (e : Event) :
    (step s e).maxConcurrent = s.maxConcurrent := by
  cases e with
  | request url p => exact prefetch_maxConcurrent s url p
  | complete url r => exact complete_maxConcurrent s url r

theorem run_maxConcurrent (K : Nat) (tr : List Event) :
    (run K tr).maxConcurrent = K :=
  foldl_pred step (fun s => s.maxConcurrent = K) (fun _ => True) tr (initState K) rfl
    (fun _ _ => trivial) (fun s e _ h => (step_maxConcurrent s e).trans h)

end Static

theorem deferAtCapacity_all (s : Static.SPState) : deferAtCapacity s := by
  intro url p hcap
  unfold Static.prefetch
  split_ifs with h1 h2 h3
  · exact ⟨rfl, rfl, rfl, fun hn _ _ => absurd h1 hn⟩
  · exact ⟨rfl, rfl, rfl, fun _ hc _ => by simp [hc] at h2⟩
  · exact ⟨rfl, rfl, rfl, fun _ _ hq => absurd h3 hq⟩
  · exact ⟨rfl, rfl, rfl, fun _ _ _ => rfl⟩

theorem decrementAndDrain_of_inv {s : Static.SPState} (hInv : Static.Inv s) :
    decrementAndDrain s := by
  intro url r hin
  have hpos : 1 ≤ s.active := by
    rw [hInv.1]
    exact List.length_pos.mpr (List.ne_nil_of_mem hin)
  have hmid_active : (Static.completeMid s url r).active = s.active - 1 := by
    cases r <;> rfl
  have hmid_queue : (Static.completeMid s url r).queue = s.queue := by
    cases r <;> rfl
  have hmid_max : (Static.completeMid s url r).maxConcurrent = s.maxConcurrent :=
    Static.completeMid_maxConcurrent s url r
  refine ⟨hpos, hmid_active, Static.complete_of_mem hin r, ?_⟩
  intro hlt
  rw [Static.complete_of_mem hin r,
    Static.processQueue_queue_tail (by rw [hmid_active, hmid_max]; exact hlt), hmid_queue]

/-- C1: in every run of the static prefetcher, the in-flight count
satisfies `0 ≤ active ≤ K`; a request arriving at capacity is deferred
to the pending list (or dropped as a duplicate), never admitted; every
settlement, success or failure, decrements the count through the
post-decrement state and then performs exactly one queue-drain
attempt, which consumes the queue head when capacity results. -/
theorem C1_bounded_concurrency (K : Nat) (tr : List Static.Event) :
    (Static.run K tr).active ≤ K ∧
    deferAtCapacity (Static.run K tr) ∧
    decrementAndDrain (Static.run K tr) := by
  have hinv := Static.run_inv K tr
  have hmax := Static.run_maxConcurrent K tr
  exact ⟨le_trans hinv.2.1 (le_of_eq hmax), deferAtCapacity_all _,
    decrementAndDrain_of_inv hinv⟩

/-- Witness for C1: a concrete run at `K = 1` with one in-flight fetch,
whose failure settlement decrements the counter from 1 to 0 and runs
the drain attempt. -/
theorem C1_bounded_concurrency_witness :
    "a" ∈ (Static.run 1 [Static.Event.request "a" Priority.high]).inflight ∧
    1 ≤ (Static.run 1 [Static.Event.request "a" Priority.high]).active ∧
    Static.complete (Static.run 1 [Static.Event.request "a" Priority.high]) "a" none =
      Static.processQueue
        (Static.completeMid (Static.run 1 [Static.Event.request "a" Priority.high]) "a" none) := by
  have h := (C1_bounded_concurrency 1 [Static.Event.request "a" Priority.high]).2.2 "a" none
    (by decide)
  exact ⟨by decide, h.1, h.2.2.1⟩

/-- C2 fails on the code: the pending list stores bare urls with no
priority tag and drains strictly first-in first-out.  Concretely, with
`K = 1` and `"w"` in flight, a low-priority request for `"a"` is
deferred, then a high-priority request for `"b"` is deferred; when
`"w"` settles, the drain admits the earlier low-priority `"a"` — the
high-priority `"b"` is not served ahead of it and stays queued. -/
theorem C2_priority_counterexample :
    ((Static.run 1
        [Static.Event.request "w" Priority.high,
         Static.Event.request "a" Priority.low,
         Static.Event.request "b" Priority.high,
         Static.Event.complete "w" (some "H")]).fetchLog.map Prod.fst = ["w", "a"]) ∧
    (Static.run 1
        [Static.Event.request "w" Priority.high,
         Static.Event.request "a" Priority.low,
         Static.Event.request "b" Priority.high,
         Static.Event.complete "w" (some "H")]).queue = ["b"] := by
  constructor <;> rfl

theorem fifoDrain_all (s : Static.SPState) : fifoDrain s :=
  fun _ _ hq hlt => Static.processQueue_of_cons hq hlt

theorem noPreemption_all (s : Static.SPState) : noPreemption s :=
  fun url p => Static.prefetch_inflight_or s url p

/-- C2 amended: pending requests are admitted in plain FIFO order with
the priority argument ignored — the drain always re-issues the oldest
pending url (with the default high fetch hint); among equal priorities
this is first-deferred first-admitted, and a request never preempts an
in-flight operation. -/
theorem C2_fifo_admission (s : Static.SPState) :
    fifoDrain s ∧ noPreemption s :=
  ⟨fifoDrain_all s, noPreemption_all s⟩

/-- Witness for C2 amended: the drain on a concrete two-element queue
admits the head, and a request extends rather than removes the
in-flight list. -/
theorem C2_fifo_admission_witness :
    Static.processQueue
        { maxConcurrent := 1, prefetched := [], cache := [], queue := ["a", "b"],
          active := 0, inflight := [], fetchLog := [] } =
      Static.prefetch
        { maxConcurrent := 1, prefetched := [], cache := [], queue := ["b"],
          active := 0, inflight := [], fetchLog := [] } "a" Priority.high ∧
    ((Static.prefetch
        { maxConcurrent := 1, prefetched := [], cache := [], queue := ["a", "b"],
          active := 0, inflight := [], fetchLog := [] } "c" Priority.low).inflight = [] ∨
     (Static.prefetch
        { maxConcurrent := 1, prefetched := [], cache := [], queue := ["a", "b"],
          active := 0, inflight := [], fetchLog := [] } "c" Priority.low).inflight = ["c"]) := by
  have h := C2_fifo_admission
    { maxConcurrent := 1, prefetched := [], cache := [], queue := ["a", "b"],
      active := 0, inflight := [], fetchLog := [] }
  exact ⟨h.1 "a" ["b"] rfl (by decide), h.2 "c" Priority.low⟩

theorem requestIdempotent_all (s : Static.SPState) : requestIdempotent s := by
  intro url p h
  unfold Static.prefetch
  rcases h with h | h
  · rw [if_pos h]
  · by_cases h1 : url ∈ s.prefetched
    · rw [if_pos h1]
    · rw [if_neg h1, if_pos h]

theorem fOnce_prefetch {url : String} {s : Static.SPState}
    (h : ((s.fetchLog.map Prod.fst).count url ≤ 1) ∧
         (url ∈ s.fetchLog.map Prod.fst → url ∈ s.prefetched))
    (v : String) (p : Priority) :
    (((Static.prefetch s v p).fetchLog.map Prod.fst).count url ≤ 1) ∧
    (url ∈ (Static.prefetch s v p).fetchLog.map Prod.fst →
      url ∈ (Static.prefetch s v p).prefetched) := by
  unfold Static.prefetch
  split_ifs with h1 h2 h3
  · exact h
  · exact h
  · exact h
  · exact h
  · show ((s.fetchLog ++ [(v, p)]).map Prod.fst).count url ≤ 1 ∧
      (url ∈ (s.fetchLog ++ [(v, p)]).map Prod.fst → url ∈ v :: s.prefetched)
    by_cases hv : v = url
    · subst hv
      have hnot : v ∉ s.fetchLog.map Prod.fst := fun hmem => h1 (h.2 hmem)
      constructor
      · simp [List.count_append, List.count_eq_zero.mpr hnot]
      · intro _
        exact List.mem_cons_self _ _
    · constructor
      · have hz : ([v].count url) = 0 := List.count_eq_zero.mpr (by simp [Ne.symm hv])
        calc ((s.fetchLog ++ [(v, p)]).map Prod.fst).count url
            = (s.fetchLog.map Prod.fst).count url + ([v].count url) := by
              simp [List.count_append]
          _ ≤ 1 := by rw [hz]; simpa using h.1
      · intro hmem
        simp only [List.map_append, List.map_cons, List.map_nil, List.mem_append,
          List.mem_singleton] at hmem
        rcases hmem with hmem | hmem
        · exact List.mem_cons_of_mem _ (h.2 hmem)
        · exact absurd hmem.symm hv

theorem fOnce_processQueue {url : String} {s : Static.SPState}
    (h : ((s.fetchLog.map Prod.fst).count url ≤ 1) ∧
         (url ∈ s.fetchLog.map Prod.fst → url ∈ s.prefetched)) :
    (((Static.processQueue s).fetchLog.map Prod.fst).count url ≤ 1) ∧
    (url ∈ (Static.processQueue s).fetchLog.map Prod.fst →
      url ∈ (Static.processQueue s).prefetched) := by
  unfold Static.processQueue
  cases hq : s.queue with
  | nil => exact h
  | cons v rest =>
    split_ifs with hcap
    · exact h
    · have h' : ((({ s with queue := rest } : Static.SPState).fetchLog.map
            Prod.fst).count url ≤ 1) ∧
          (url ∈ ({ s with queue := rest } : Static.SPState).fetchLog.map Prod.fst →
            url ∈ ({ s with queue := rest } : Static.SPState).prefetched) := h
      exact fOnce_prefetch h' v Priority.high

theorem fOnce_complete {url v : String} {r : Option String} {s : Static.SPState}
    (hQ : ¬(v = url ∧ r = none))
    (h : ((s.fetchLog.map Prod.fst).count url ≤ 1) ∧
         (url ∈ s.fetchLog.map Prod.fst → url ∈ s.prefetched)) :
    (((Static.complete s v r).fetchLog.map Prod.fst).count url ≤ 1) ∧
    (url ∈ (Static.complete s v r).fetchLog.map Prod.fst →
      url ∈ (Static.complete s v r).prefetched) := by
  unfold Static.complete Static.completeMid
  split_ifs with hin
  · cases r with
    | some html => exact fOnce_processQueue h
    | none =>
      have hv : url ≠ v := fun he => hQ ⟨he.symm, rfl⟩
      apply fOnce_processQueue
      exact ⟨h.1, fun hmem => (List.mem_erase_of_ne hv).2 (h.2 hmem)⟩
  · exact h

theorem fOnceAP_prefetchArticle {slug : String} {s : AP.APState}
    (h : (s.fetchLog.count slug ≤ 1) ∧ (slug ∈ s.fetchLog → slug ∈ s.prefetchedUrls))
    (v : String) :
    ((AP.prefetchArticle s v).fetchLog.count slug ≤ 1) ∧
    (slug ∈ (AP.prefetchArticle s v).fetchLog →
      slug ∈ (AP.prefetchArticle s v).prefetchedUrls) := by
  unfold AP.prefetchArticle
  split_ifs with h1 h2
  · exact h
  · exact h
  · show ((s.fetchLog ++ [v]).count slug ≤ 1) ∧
      (slug ∈ s.fetchLog ++ [v] → slug ∈ v :: s.prefetchedUrls)
    by_cases hv : v = slug
    · subst hv
      have hnot : v ∉ s.fetchLog := fun hmem => h1 (h.2 hmem)
      constructor
      · simp [List.count_append, List.count_eq_zero.mpr hnot]
      · intro _
        exact List.mem_cons_self _ _
    · constructor
      · have hz : ([v].count slug) = 0 := List.count_eq_zero.mpr (by simp [Ne.symm hv])
        calc (s.fetchLog ++ [v]).count slug
            = s.fetchLog.count slug + ([v].count slug) := List.count_append _ _ _
          _ ≤ 1 := by rw [hz]; simpa using h.1
      · intro hmem
        rcases List.mem_append.1 hmem with hmem | hmem
        · exact List.mem_cons_of_mem _ (h.2 hmem)
        · simp only [List.mem_singleton] at hmem
          exact absurd hmem.symm hv

theorem fOnceAP_processQueue {slug : String} {s : AP.APState}
    (h : (s.fetchLog.count slug ≤ 1) ∧ (slug ∈ s.fetchLog → slug ∈ s.prefetchedUrls)) :
    ((AP.processQueue s).fetchLog.count slug ≤ 1) ∧
    (slug ∈ (AP.processQueue s).fetchLog →
      slug ∈ (AP.processQueue s).prefetchedUrls) := by
  unfold AP.processQueue
  cases hq : s.queue with
  | nil => exact h
  | cons v rest =>
    split_ifs with hcap
    · exact h
    · have h' : ((({ s with queue := rest } : AP.APState).fetchLog.count slug ≤ 1)) ∧
          (slug ∈ ({ s with queue := rest } : AP.APState).fetchLog →
            slug ∈ ({ s with queue := rest } : AP.APState).prefetchedUrls) := h
      exact fOnceAP_prefetchArticle h' v

theorem fOnceAP_complete {slug v : String} {ok : Bool} {s : AP.APState}
    (hQ : ¬(v = slug ∧ ok = false))
    (h : (s.fetchLog.count slug ≤ 1) ∧ (slug ∈ s.fetchLog → slug ∈ s.prefetchedUrls)) :
    ((AP.complete s v ok).fetchLog.count slug ≤ 1) ∧
    (slug ∈ (AP.complete s v ok).fetchLog →
      slug ∈ (AP.complete s v ok).prefetchedUrls) := by
  unfold AP.complete
  split_ifs with hin hok
  · exact fOnceAP_processQueue h
  · have hv : slug ≠ v := by
      intro he
      exact hQ ⟨he.symm, by simpa using hok⟩
    apply fOnceAP_processQueue
    exact ⟨h.1, fun hmem => (List.mem_erase_of_ne hv).2 (h.2 hmem)⟩
  · exact h

/-- C3 fails as stated: in `prefetch.js` the queue push has no duplicate
guard (`this.prefetchQueue.push(slug)` unconditionally), so with one
slot busy, two requests for `"y"` enqueue it twice — a duplicate entry
in the pending queue. -/
theorem C3_duplicate_queue_counterexample :
    (AP.run 1 [AP.Event.request "x", AP.Event.request "y", AP.Event.request "y"]).queue
      = ["y", "y"] ∧
    ¬ (AP.run 1
        [AP.Event.request "x", AP.Event.request "y", AP.Event.request "y"]).queue.Nodup := by
  exact ⟨rfl, by decide⟩

/-- C3 amended: requests are idempotent with respect to fetches in both
implementations — a request for an identifier that is in flight or
cached is a complete no-op, and in runs without a failed settlement for
the identifier at most one fetch for it is ever started (so the count
stays at 1 after a successful prefetch); the pending queue stays
duplicate-free in `StaticPrefetcher`, but `ArticlePrefetcher`
(`prefetch.js`) can hold duplicate pending entries, which are discarded
at drain time by the `prefetchedUrls` guard. -/
theorem C3_idempotent_requests (K : Nat) (tr : List Static.Event)
    (K' : Nat) (tr' : List AP.Event) (url slug : String)
    (h1 : Static.Event.complete url none ∉ tr)
    (h2 : AP.Event.complete slug false ∉ tr') :
    requestIdempotent (Static.run K tr) ∧
    (Static.run K tr).queue.Nodup ∧
    (∀ s : AP.APState, ∀ v, v ∈ s.prefetchedUrls → AP.prefetchArticle s v = s) ∧
    fetchedOnce K tr url ∧
    fetchedOnceAP K' tr' slug := by
  refine ⟨requestIdempotent_all _, (Static.run_inv K tr).2.2.2.2.1, ?_, ?_, ?_⟩
  · intro s v hv
    unfold AP.prefetchArticle
    rw [if_pos hv]
  · have h := foldl_pred Static.step
      (fun s => ((s.fetchLog.map Prod.fst).count url ≤ 1) ∧
        (url ∈ s.fetchLog.map Prod.fst → url ∈ s.prefetched))
      (fun e => e ≠ Static.Event.complete url none) tr (Static.initState K)
      (by simp [Static.initState])
      (fun e he => fun heq => h1 (heq ▸ he))
      (fun s e hQ h => by
        cases e with
        | request v p => exact fOnce_prefetch h v p
        | complete v r =>
          refine fOnce_complete ?_ h
          rintro ⟨rfl, rfl⟩
          exact hQ rfl)
    exact h.1
  · have h := foldl_pred AP.step
      (fun s => (s.fetchLog.count slug ≤ 1) ∧
        (slug ∈ s.fetchLog → slug ∈ s.prefetchedUrls))
      (fun e => e ≠ AP.Event.complete slug false) tr' (AP.initState K')
      (by simp [AP.initState])
      (fun e he => fun heq => h2 (heq ▸ he))
      (fun s e hQ h => by
        cases e with
        | request v => exact fOnceAP_prefetchArticle h v
        | complete v ok =>
          refine fOnceAP_complete ?_ h
          rintro ⟨rfl, rfl⟩
          exact hQ rfl)
    exact h.1

/-- Witness for C3 amended: a run that successfully prefetches `"a"`
has fetch count 1 for `"a"`, and an article-prefetcher run touching
`"b"` twice starts one operation. -/
theorem C3_idempotent_requests_witness :
    (Static.Event.complete "a" none ∉
      [Static.Event.request "a" Priority.high, Static.Event.complete "a" (some "H")]) ∧
    (AP.Event.complete "b" false ∉ [AP.Event.request "b", AP.Event.request "b"]) ∧
    fetchedOnce 1 [Static.Event.request "a" Priority.high,
      Static.Event.complete "a" (some "H")] "a" ∧
    fetchedOnceAP 1 [AP.Event.request "b", AP.Event.request "b"] "b" := by
  have h := C3_idempotent_requests 1
    [Static.Event.request "a" Priority.high, Static.Event.complete "a" (some "H")]
    1 [AP.Event.request "b", AP.Event.request "b"] "a" "b"
    (by decide) (by decide)
  exact ⟨by decide, by decide, h.2.2.2.1, h.2.2.2.2⟩

theorem lookup_map_overwrite (m : List (String × Nat)) (id : String) (d : Nat)
    (h : (m.lookup id).isSome = true) :
    (m.map (fun p => if p.1 = id then (id, d) else p)).lookup id = some d := by
  induction m with
  | nil => simp [List.lookup] at h
  | cons p rest ih =>
    obtain ⟨a, b⟩ := p
    rw [List.map_cons]
    by_cases ha : a = id
    · subst ha
      rw [if_pos (show ((a, b) : String × Nat).1 = a from rfl)]
      simp [List.lookup]
    · rw [if_neg (show ¬((a, b) : String × Nat).1 = id from ha)]
      have h' : (rest.lookup id).isSome = true := by
        simpa [List.lookup, beq_false_of_ne (Ne.symm ha)] using h
      simpa [List.lookup, beq_false_of_ne (Ne.symm ha)] using ih h'

theorem keys_map_overwrite (m : List (String × Nat)) (id : String) (d : Nat) :
    (m.map (fun p => if p.1 = id then (id, d) else p)).map Prod.fst = m.map Prod.fst := by
  rw [List.map_map]
  apply List.map_congr_left
  intro p _
  by_cases hp : p.1 = id
  · simp [Function.comp, hp]
  · simp [Function.comp, hp]

theorem not_mem_keys_of_lookup_none {β : Type} {m : List (String × β)} {k : String}
    (h : m.lookup k = none) : k ∉ m.map Prod.fst := by
  intro hmem
  obtain ⟨p, hp, hpk⟩ := List.mem_map.1 hmem
  exact (lookup_eq_none_iff m k).1 h p hp hpk

theorem reenterIgnored_all (s : Hover.HState) : reenterIgnored s := by
  intro id h
  unfold Hover.enterKeep
  rw [if_pos h]

theorem reenterRestarts_all (s : Hover.HState) : reenterRestarts s := by
  intro id h
  unfold Hover.enterReset
  rw [if_pos h]
  exact ⟨lookup_map_overwrite s.timers id (s.now + s.delay) h,
    keys_map_overwrite s.timers id (s.now + s.delay)⟩

theorem atMostOneTimer_enterKeep {s : Hover.HState} (h : atMostOneTimer s)
    (id : String) : atMostOneTimer (Hover.enterKeep s id) := by
  unfold Hover.enterKeep
  split_ifs with h1
  · exact h
  · have hnone : s.timers.lookup id = none :=
      Option.not_isSome_iff_eq_none.1 h1
    show ((s.timers ++ [(id, s.now + s.delay)]).map Prod.fst).Nodup
    rw [List.map_append]
    simp only [List.nodup_append, List.map_cons, List.map_nil, List.nodup_cons,
      List.nodup_nil]
    exact ⟨h, ⟨by simp, trivial⟩,
      by simpa [List.disjoint_singleton] using not_mem_keys_of_lookup_none hnone⟩

theorem atMostOneTimer_enterReset {s : Hover.HState} (h : atMostOneTimer s)
    (id : String) : atMostOneTimer (Hover.enterReset s id) := by
  unfold Hover.enterReset
  split_ifs with h1
  · show ((s.timers.map fun p => if p.1 = id then (id, s.now + s.delay) else p).map
      Prod.fst).Nodup
    rw [keys_map_overwrite]
    exact h
  · have hnone : s.timers.lookup id = none :=
      Option.not_isSome_iff_eq_none.1 h1
    show ((s.timers ++ [(id, s.now + s.delay)]).map Prod.fst).Nodup
    rw [List.map_append]
    simp only [List.nodup_append, List.map_cons, List.map_nil, List.nodup_cons,
      List.nodup_nil]
    exact ⟨h, ⟨by simp, trivial⟩,
      by simpa [List.disjoint_singleton] using not_mem_keys_of_lookup_none hnone⟩

theorem atMostOneTimer_leave {s : Hover.HState} (h : atMostOneTimer s)
    (id : String) : atMostOneTimer (Hover.leave s id) := by
  unfold Hover.leave
  split_ifs with h1
  · exact List.Nodup.sublist (List.Sublist.map Prod.fst (List.eraseP_sublist _)) h
  · exact h

theorem atMostOneTimer_tick {s : Hover.HState} (h : atMostOneTimer s) :
    atMostOneTimer (Hover.tick s) := by
  unfold Hover.tick
  exact List.Nodup.sublist (List.Sublist.map Prod.fst (List.filter_sublist _)) h

theorem atMostOneTimer_stepKeep {s : Hover.HState} (h : atMostOneTimer s)
    (e : Hover.HEvent) : atMostOneTimer (Hover.stepKeep s e) := by
  cases e with
  | enter id => exact atMostOneTimer_enterKeep h id
  | leave id => exact atMostOneTimer_leave h id
  | tick => exact atMostOneTimer_tick h

theorem atMostOneTimer_stepReset {s : Hover.HState} (h : atMostOneTimer s)
    (e : Hover.HEvent) : atMostOneTimer (Hover.stepReset s e) := by
  cases e with
  | enter id => exact atMostOneTimer_enterReset h id
  | leave id => exact atMostOneTimer_leave h id
  | tick => exact atMostOneTimer_tick h

/-- C4 fails on `prefetch.js`: `handleMouseEnter` clears a running
timer and starts a fresh one.  With delay 2, entering `"x"`, waiting
one unit and re-entering leaves a timer with deadline 3 — the original
deadline-2 handle was reset, and the second enter changed the state
rather than being ignored (the static prefetcher's scheduler, by
contrast, keeps the deadline-2 handle). -/
theorem C4_restart_counterexample :
    (Hover.runReset 2
      [Hover.HEvent.enter "x", Hover.HEvent.tick, Hover.HEvent.enter "x"]).timers
        = [("x", 3)] ∧
    (Hover.runKeep 2
      [Hover.HEvent.enter "x", Hover.HEvent.tick, Hover.HEvent.enter "x"]).timers
        = [("x", 2)] ∧
    Hover.stepReset (Hover.runReset 2 [Hover.HEvent.enter "x", Hover.HEvent.tick])
        (Hover.HEvent.enter "x")
      ≠ Hover.runReset 2 [Hover.HEvent.enter "x", Hover.HEvent.tick] := by
  exact ⟨rfl, rfl, by decide⟩

/-- C4 amended: both schedulers keep at most one live timer per
identifier; the static prefetcher's `scheduleHoverPrefetch` ignores an
enter while a timer is live (state unchanged, no reset), while
`prefetch.js`'s `handleMouseEnter` cancels the live timer and starts a
fresh one whose deadline is `now + delay` (reset-on-re-enter), still
with one handle per identifier. -/
theorem C4_single_timer (delay : Nat) (tr : List Hover.HEvent) (s : Hover.HState) :
    atMostOneTimer (Hover.runKeep delay tr) ∧
    atMostOneTimer (Hover.runReset delay tr) ∧
    reenterIgnored s ∧
    reenterRestarts s := by
  refine ⟨?_, ?_, reenterIgnored_all s, reenterRestarts_all s⟩
  · exact foldl_pred Hover.stepKeep atMostOneTimer (fun _ => True) tr
      (Hover.initState delay) (by simp [Hover.initState, atMostOneTimer])
      (fun _ _ => trivial) (fun _ e _ h => atMostOneTimer_stepKeep h e)
  · exact foldl_pred Hover.stepReset atMostOneTimer (fun _ => True) tr
      (Hover.initState delay) (by simp [Hover.initState, atMostOneTimer])
      (fun _ _ => trivial) (fun _ e _ h => atMostOneTimer_stepReset h e)

/-- Witness for C4 amended: with a live timer for `"x"`, the static
scheduler's enter is the identity, and the article scheduler's enter
moves the deadline to `now + delay`. -/
theorem C4_single_timer_witness :
    ((Hover.runReset 2 [Hover.HEvent.enter "x"]).timers.lookup "x").isSome = true ∧
    Hover.enterKeep (Hover.runReset 2 [Hover.HEvent.enter "x"]) "x"
      = Hover.runReset 2 [Hover.HEvent.enter "x"] ∧
    (Hover.enterReset (Hover.runReset 2 [Hover.HEvent.enter "x"]) "x").timers.lookup "x"
      = some ((Hover.runReset 2 [Hover.HEvent.enter "x"]).now
          + (Hover.runReset 2 [Hover.HEvent.enter "x"]).delay) := by
  have h := C4_single_timer 2 [Hover.HEvent.enter "x"]
    (Hover.runReset 2 [Hover.HEvent.enter "x"])
  exact ⟨by decide, h.2.2.1 "x" (by decide), (h.2.2.2 "x" (by decide)).1⟩

/-- C5 fails for the markdown-rendering draft: its click handler, on a
cache hit for `"a"`, still fetches `./articles/a/metadata.json` and
goes through `await` suspension points before rendering. -/
theorem C5_cached_commit_counterexample :
    (Part3.hijackClick [("a", "<p>x</p>")] "a").usedCache = true ∧
    (Part3.hijackClick [("a", "<p>x</p>")] "a").fetchCalls
      = ["./articles/a/metadata.json"] ∧
    (Part3.hijackClick [("a", "<p>x</p>")] "a").awaited ≠ 0 := by
  exact ⟨rfl, by decide, by decide⟩

/-- C5 amended: `StaticPrefetcher.navigate` on a cached identifier
performs zero fetches and zero awaits, and completes the content swap,
title update, history push and scroll synchronously; the
markdown-rendering draft's click handler, by contrast, performs
exactly one metadata fetch (never a raw-content fetch) and awaits it
even on a cache hit. -/
theorem C5_instant_navigation (cache : List (String × Static.CachedDoc))
    (page : Static.Page) (url : String) (doc : Static.CachedDoc)
    (hc : List (String × String)) (slug : String)
    (h1 : cache.lookup url = some doc)
    (h2 : (hc.lookup slug).isSome = true) :
    instantNavCached cache page url doc ∧ cachedClickFetchesMetadata hc slug := by
  constructor
  · refine ⟨?_, ?_, ?_⟩
    · unfold Static.navigate
      rw [h1]
      dsimp only
      cases doc.docMain <;> cases page.mainContent <;> rfl
    · unfold Static.navigate
      rw [h1]
      dsimp only
      cases doc.docMain <;> cases page.mainContent <;> rfl
    · intro m pm hm hpm
      unfold Static.navigate
      rw [h1]
      dsimp only
      rw [hm, hpm]
  · unfold cachedClickFetchesMetadata Part3.hijackClick
    rw [if_pos h2]

/-- Witness for C5 amended at a concrete cache, page and slug. -/
theorem C5_instant_navigation_witness :
    ([("a", ({ docMain := some "M", docTitle := "T" } : Static.CachedDoc))].lookup "a"
      = some { docMain := some "M", docTitle := "T" }) ∧
    instantNavCached [("a", { docMain := some "M", docTitle := "T" })]
      { mainContent := some "old", title := "t0", historyStack := [],
        scrolledTop := false, location := none } "a"
      { docMain := some "M", docTitle := "T" } ∧
    cachedClickFetchesMetadata [("a", "<p>x</p>")] "a" := by
  have h := C5_instant_navigation [("a", { docMain := some "M", docTitle := "T" })]
    { mainContent := some "old", title := "t0", historyStack := [],
      scrolledTop := false, location := none } "a"
    { docMain := some "M", docTitle := "T" } [("a", "<p>x</p>")] "a"
    (by decide) (by decide)
  exact ⟨by decide, h.1, h.2⟩

theorem lookup_append_of_some {β : Type} {m : List (String × β)} {k : String} {b : β}
    (m' : List (String × β)) (h : m.lookup k = some b) :
    (m ++ m').lookup k = some b := by
  induction m with
  | nil => simp [List.lookup] at h
  | cons p rest ih =>
    obtain ⟨a, c⟩ := p
    by_cases hk : k = a
    · subst hk
      simp only [List.lookup, beq_self_eq_true] at h ⊢
      simpa using h
    · simp only [List.cons_append, List.lookup, beq_false_of_ne hk] at h ⊢
      exact ih h

theorem entriesImmutable_of_inv {s : Static.SPState} (hInv : Static.Inv s) :
    entriesImmutable s := by
  intro e v hval hlook
  cases e with
  | request url p =>
    show (Static.prefetch s url p).cache.lookup v = some hval
    rw [Static.prefetch_cache]
    exact hlook
  | complete url r =>
    show (Static.complete s url r).cache.lookup v = some hval
    unfold Static.complete
    split_ifs with hin
    · rw [Static.processQueue_cache]
      cases r with
      | some html =>
        have hnone : s.cache.lookup url = none := hInv.2.2.2.2.2.2.1 url hin
        show (mapSet s.cache url html).lookup v = some hval
        rw [mapSet_of_none _ _ _ hnone]
        exact lookup_append_of_some _ hlook
      | none => exact hlook
    · exact hlook

/-- C6 fails as stated: the write primitives are not guarded no-ops.
`prerenderArticle` of the prefetch-and-prerender draft removes an
existing wrapper and appends the new one, and `Map.set` (the static
prefetcher's cache write) replaces in place: writing `"new"` over an
existing `"old"` entry for `"a"` yields `"new"`, not a silent no-op. -/
theorem C6_overwrite_counterexample :
    Prerender.prerenderArticle [("a", "old")] "a" "new" = [("a", "new")] ∧
    Prerender.getPrerendered (Prerender.prerenderArticle [("a", "old")] "a" "new") "a"
      = some "new" ∧
    mapSet [("a", "old")] "a" "new" = [("a", "new")] := by
  exact ⟨rfl, rfl, rfl⟩

/-- C6 amended: the write primitives are last-writer-wins, but in every
reachable state of the static prefetcher a cached entry is never
actually overwritten: a re-prefetch request for a cached identifier is
a complete no-op, and every event leaves each existing cache entry
unchanged (successful settlements only ever write identifiers that are
not yet cached). -/
theorem C6_first_writer_wins (K : Nat) (tr : List Static.Event) :
    requestIdempotent (Static.run K tr) ∧ entriesImmutable (Static.run K tr) :=
  ⟨requestIdempotent_all _, entriesImmutable_of_inv (Static.run_inv K tr)⟩

/-- Witness for C6 amended on a run that cached `"a"`. -/
theorem C6_first_writer_wins_witness :
    ((Static.run 1 [Static.Event.request "a" Priority.high,
        Static.Event.complete "a" (some "H")]).cache.lookup "a").isSome = true ∧
    requestIdempotent (Static.run 1 [Static.Event.request "a" Priority.high,
      Static.Event.complete "a" (some "H")]) ∧
    entriesImmutable (Static.run 1 [Static.Event.request "a" Priority.high,
      Static.Event.complete "a" (some "H")]) := by
  have h := C6_first_writer_wins 1
    [Static.Event.request "a" Priority.high, Static.Event.complete "a" (some "H")]
  exact ⟨by decide, h.1, h.2⟩

theorem prefetch_prefetched_not_mem {s : Static.SPState} {url v : String}
    (h1 : url ∉ s.prefetched) (h2 : url ≠ v) (p : Priority) :
    url ∉ (Static.prefetch s v p).prefetched := by
  unfold Static.prefetch
  split_ifs
  · exact h1
  · exact h1
  · exact h1
  · exact h1
  · intro hmem
    rcases List.mem_cons.1 hmem with he | hm
    · exact h2 he
    · exact h1 hm

theorem processQueue_prefetched_not_mem {s : Static.SPState} {url : String}
    (h1 : url ∉ s.prefetched) (h2 : url ∉ s.queue) :
    url ∉ (Static.processQueue s).prefetched := by
  unfold Static.processQueue
  cases hq : s.queue with
  | nil => exact h1
  | cons q rest =>
    split_ifs with hcap
    · exact h1
    · have hne : url ≠ q := fun he => h2 (hq ▸ (he ▸ List.mem_cons_self q rest))
      have h1' : url ∉ ({ s with queue := rest } : Static.SPState).prefetched := h1
      exact prefetch_prefetched_not_mem h1' hne Priority.high

theorem failureRecovery_of_inv {s : Static.SPState} (hInv : Static.Inv s) :
    failureRecovery s := by
  intro url hin hnq
  have heq := Static.complete_of_mem hin (r := none)
  have hmem_mid : url ∉ (Static.completeMid s url none).prefetched :=
    hInv.2.2.2.1.not_mem_erase
  have hnp : url ∉ (Static.complete s url none).prefetched := by
    rw [heq]
    exact processQueue_prefetched_not_mem hmem_mid hnq
  have hcache : (Static.complete s url none).cache = s.cache := by
    rw [heq, Static.processQueue_cache]
    rfl
  have hlookup : (Static.complete s url none).cache.lookup url = none := by
    rw [hcache]
    exact hInv.2.2.2.2.2.2.1 url hin
  refine ⟨hnp, hlookup, ?_⟩
  intro p hlt
  have hmax : (Static.complete s url none).maxConcurrent = s.maxConcurrent :=
    Static.complete_maxConcurrent s url none
  have hadm := Static.prefetch_admit hnp hlookup (by rw [hmax]; exact hlt) p
  rw [hadm]

/-- C7: after a failed fetch settlement for an identifier (that is not
also sitting in the pending queue), the cache holds no entry for it and
it is removed from the `prefetched` bookkeeping set, so a subsequent
request at available capacity starts a fresh fetch instead of being
suppressed. -/
theorem C7_failure_recovery (K : Nat) (tr : List Static.Event) :
    failureRecovery (Static.run K tr) :=
  failureRecovery_of_inv (Static.run_inv K tr)

/-- Witness for C7 on a run with `"a"` in flight: the failure
settlement clears the bookkeeping and a retry starts a new fetch. -/
theorem C7_failure_recovery_witness :
    "a" ∈ (Static.run 1 [Static.Event.request "a" Priority.high]).inflight ∧
    "a" ∉ (Static.run 1 [Static.Event.request "a" Priority.high]).queue ∧
    "a" ∉ (Static.complete (Static.run 1 [Static.Event.request "a" Priority.high])
      "a" none).prefetched ∧
    (Static.complete (Static.run 1 [Static.Event.request "a" Priority.high])
      "a" none).cache.lookup "a" = none := by
  have h := C7_failure_recovery 1 [Static.Event.request "a" Priority.high] "a"
    (by decide) (by decide)
  exact ⟨by decide, by decide, h.1, h.2.1⟩

theorem tick_of_not_due {s : Hover.HState} (h : ∀ p ∈ s.timers, s.now + 1 < p.2) :
    Hover.tick s = { s with now := s.now + 1 } := by
  unfold Hover.tick
  have hfilter1 : s.timers.filter (fun p => !decide (p.2 ≤ s.now + 1)) = s.timers :=
    List.filter_eq_self.mpr (fun p hp => by simp [Nat.not_le.mpr (h p hp)])
  have hfilter2 : s.timers.filter (fun p => decide (p.2 ≤ s.now + 1)) = [] :=
    List.filter_eq_nil_iff.mpr (fun p hp => by simp [Nat.not_le.mpr (h p hp)])
  rw [hfilter1, hfilter2]
  simp

theorem ticksKeep_no_fire (j : Nat) :
    ∀ s : Hover.HState, (∀ p ∈ s.timers, s.now + j < p.2) →
      (Hover.ticks j).foldl Hover.stepKeep s = { s with now := s.now + j } := by
  induction j with
  | zero =>
    intro s _
    simp [Hover.ticks]
  | succ n ih =>
    intro s h
    rw [show Hover.ticks (n + 1) = Hover.HEvent.tick :: Hover.ticks n from rfl,
      List.foldl_cons]
    have h1 : ∀ p ∈ s.timers, s.now + 1 < p.2 := by
      intro p hp
      have := h p hp
      omega
    rw [show Hover.stepKeep s Hover.HEvent.tick = Hover.tick s from rfl,
      tick_of_not_due h1]
    have h2 : ∀ p ∈ ({ s with now := s.now + 1 } : Hover.HState).timers,
        (s.now + 1) + n < p.2 := by
      intro p hp
      have := h p hp
      omega
    rw [ih _ h2]
    have harith : s.now + 1 + n = s.now + (n + 1) := by omega
    rw [harith]

theorem ticks_fold_reset_eq_keep (j : Nat) :
    ∀ s : Hover.HState,
      (Hover.ticks j).foldl Hover.stepReset s = (Hover.ticks j).foldl Hover.stepKeep s := by
  induction j with
  | zero => intro s; rfl
  | succ n ih =>
    intro s
    rw [show Hover.ticks (n + 1) = Hover.HEvent.tick :: Hover.ticks n from rfl,
      List.foldl_cons, List.foldl_cons]
    exact ih (Hover.tick s)

theorem hover_enter_init (delay : Nat) (u : String) :
    Hover.enterKeep (Hover.initState delay) u
      = { delay := delay, now := 0, timers := [(u, delay)], calls := [] } := by
  unfold Hover.enterKeep Hover.initState
  simp [List.lookup]

theorem hoverPrefixKeep (delay k : Nat) (u : String) (hk : k < delay) :
    (Hover.ticks k).foldl Hover.stepKeep
        (Hover.stepKeep (Hover.initState delay) (Hover.HEvent.enter u))
      = { delay := delay, now := k, timers := [(u, delay)], calls := [] } := by
  rw [show Hover.stepKeep (Hover.initState delay) (Hover.HEvent.enter u)
      = Hover.enterKeep (Hover.initState delay) u from rfl, hover_enter_init]
  rw [ticksKeep_no_fire k _ (by intro p hp; simp only [List.mem_singleton] at hp; subst hp; dsimp only; omega)]
  have : 0 + k = k := by omega
  rw [this]

theorem hover_leave_only_timer (delay now : Nat) (u : String) (calls : List String) :
    Hover.leave { delay := delay, now := now, timers := [(u, delay)], calls := calls } u
      = { delay := delay, now := now, timers := [], calls := calls } := by
  unfold Hover.leave
  simp [List.lookup, List.eraseP]

theorem step_no_enter_keep {u : String} {s : Hover.HState}
    (h : u ∉ s.timers.map Prod.fst ∧ u ∉ s.calls) (e : Hover.HEvent)
    (he : e ≠ Hover.HEvent.enter u) :
    u ∉ (Hover.stepKeep s e).timers.map Prod.fst ∧ u ∉ (Hover.stepKeep s e).calls := by
  cases e with
  | enter v =>
    have hv : v ≠ u := fun hevu => he (by rw [hevu])
    show u ∉ (Hover.enterKeep s v).timers.map Prod.fst ∧ u ∉ (Hover.enterKeep s v).calls
    unfold Hover.enterKeep
    split_ifs with h1
    · exact h
    · refine ⟨?_, h.2⟩
      rw [List.map_append]
      intro hmem
      rcases List.mem_append.1 hmem with hmem | hmem
      · exact h.1 hmem
      · simp only [List.map_cons, List.map_nil, List.mem_singleton] at hmem
        exact hv hmem.symm
  | leave v =>
    show u ∉ (Hover.leave s v).timers.map Prod.fst ∧ u ∉ (Hover.leave s v).calls
    unfold Hover.leave
    split_ifs with h1
    · exact ⟨fun hmem =>
        h.1 ((List.Sublist.map Prod.fst (List.eraseP_sublist _)).subset hmem), h.2⟩
    · exact h
  | tick =>
    show u ∉ (Hover.tick s).timers.map Prod.fst ∧ u ∉ (Hover.tick s).calls
    unfold Hover.tick
    constructor
    · exact fun hmem =>
        h.1 ((List.Sublist.map Prod.fst (List.filter_sublist _)).subset hmem)
    · intro hmem
      rcases List.mem_append.1 hmem with hmem | hmem
      · exact h.2 hmem
      · exact h.1 ((List.Sublist.map Prod.fst (List.filter_sublist _)).subset hmem)

theorem step_no_enter_reset {u : String} {s : Hover.HState}
    (h : u ∉ s.timers.map Prod.fst ∧ u ∉ s.calls) (e : Hover.HEvent)
    (he : e ≠ Hover.HEvent.enter u) :
    u ∉ (Hover.stepReset s e).timers.map Prod.fst ∧ u ∉ (Hover.stepReset s e).calls := by
  cases e with
  | enter v =>
    have hv : v ≠ u := fun hevu => he (by rw [hevu])
    show u ∉ (Hover.enterReset s v).timers.map Prod.fst ∧ u ∉ (Hover.enterReset s v).calls
    unfold Hover.enterReset
    split_ifs with h1
    · refine ⟨?_, h.2⟩
      rw [keys_map_overwrite]
      exact h.1
    · refine ⟨?_, h.2⟩
      rw [List.map_append]
      intro hmem
      rcases List.mem_append.1 hmem with hmem | hmem
      · exact h.1 hmem
      · simp only [List.map_cons, List.map_nil, List.mem_singleton] at hmem
        exact hv hmem.symm
  | leave v => exact step_no_enter_keep h (Hover.HEvent.leave v) (by simp)
  | tick => exact step_no_enter_keep h Hover.HEvent.tick (by simp)

theorem hoverCancelledRun {u : String} (k delay : Nat)
    (hk : k < delay) (rest : List Hover.HEvent)
    (hrest : ∀ e ∈ rest, e ≠ Hover.HEvent.enter u) :
    hoverCancelled delay k u rest := by
  constructor
  · unfold Hover.runKeep
    rw [List.foldl_cons, List.foldl_append, hoverPrefixKeep delay k u hk,
      List.foldl_cons, show ∀ s, Hover.stepKeep s (Hover.HEvent.leave u)
        = Hover.leave s u from fun _ => rfl, hover_leave_only_timer]
    have h := foldl_pred Hover.stepKeep
      (fun s => u ∉ s.timers.map Prod.fst ∧ u ∉ s.calls)
      (fun e => e ≠ Hover.HEvent.enter u) rest
      { delay := delay, now := k, timers := [], calls := [] }
      (by simp) hrest (fun _ e hQ hP => step_no_enter_keep hP e hQ)
    exact h.2
  · unfold Hover.runReset
    rw [List.foldl_cons, show Hover.stepReset (Hover.initState delay)
        (Hover.HEvent.enter u) = Hover.enterReset (Hover.initState delay) u from rfl,
      show Hover.enterReset (Hover.initState delay) u
        = Hover.enterKeep (Hover.initState delay) u from rfl,
      hover_enter_init, List.foldl_append, ticks_fold_reset_eq_keep,
      ticksKeep_no_fire k _ (by intro p hp; simp only [List.mem_singleton] at hp; subst hp; dsimp only; omega)]
    have h0 : 0 + k = k := by omega
    rw [h0, List.foldl_cons, show ∀ s, Hover.stepReset s (Hover.HEvent.leave u)
        = Hover.leave s u from fun _ => rfl, hover_leave_only_timer]
    have h := foldl_pred Hover.stepReset
      (fun s => u ∉ s.timers.map Prod.fst ∧ u ∉ s.calls)
      (fun e => e ≠ Hover.HEvent.enter u) rest
      { delay := delay, now := k, timers := [], calls := [] }
      (by simp) hrest (fun _ e hQ hP => step_no_enter_reset hP e hQ)
    exact h.2

theorem hover_fired (delay : Nat) (u : String) (hd : 1 ≤ delay) :
    hoverFiredUndisturbed delay u := by
  obtain ⟨d, rfl⟩ : ∃ d, delay = d + 1 := ⟨delay - 1, by omega⟩
  have hfire :
      Hover.tick { delay := d + 1, now := d, timers := [(u, d + 1)], calls := [] }
        = { delay := d + 1, now := d + 1, timers := [], calls := [u] } := by
    unfold Hover.tick
    simp
  have hsplitTicks : ∀ f : Hover.HState → Hover.HEvent → Hover.HState,
      ((Hover.ticks (d + 1)).foldl f
        { delay := d + 1, now := 0, timers := [(u, d + 1)], calls := [] }
      = (Hover.ticks 1).foldl f
        ((Hover.ticks d).foldl f
          { delay := d + 1, now := 0, timers := [(u, d + 1)], calls := [] })) := by
    intro f
    rw [show Hover.ticks (d + 1) = Hover.ticks d ++ Hover.ticks 1 from by
      unfold Hover.ticks
      rw [List.replicate_succ' d Hover.HEvent.tick]
      rfl]
    rw [List.foldl_append]
  refine ⟨?_, ?_, fun s id => ⟨?_, ?_⟩⟩
  · unfold Hover.runKeep
    rw [List.foldl_cons, show Hover.stepKeep (Hover.initState (d + 1))
        (Hover.HEvent.enter u) = Hover.enterKeep (Hover.initState (d + 1)) u from rfl,
      hover_enter_init, List.foldl_append, hsplitTicks,
      ticksKeep_no_fire d _ (by intro p hp; simp only [List.mem_singleton] at hp; subst hp; dsimp only; omega)]
    have h0 : 0 + d = d := by omega
    rw [h0]
    rw [show (Hover.ticks 1).foldl Hover.stepKeep
        { delay := d + 1, now := d, timers := [(u, d + 1)], calls := [] }
      = Hover.tick { delay := d + 1, now := d, timers := [(u, d + 1)], calls := [] }
      from rfl, hfire]
    rw [List.foldl_cons, show ∀ s, Hover.stepKeep s (Hover.HEvent.leave u)
        = Hover.leave s u from fun _ => rfl]
    rfl
  · unfold Hover.runReset
    rw [List.foldl_cons, show Hover.stepReset (Hover.initState (d + 1))
        (Hover.HEvent.enter u) = Hover.enterKeep (Hover.initState (d + 1)) u from rfl,
      hover_enter_init, List.foldl_append, hsplitTicks, ticks_fold_reset_eq_keep d,
      ticksKeep_no_fire d _ (by intro p hp; simp only [List.mem_singleton] at hp; subst hp; dsimp only; omega)]
    have h0 : 0 + d = d := by omega
    rw [h0]
    rw [show (Hover.ticks 1).foldl Hover.stepReset
        { delay := d + 1, now := d, timers := [(u, d + 1)], calls := [] }
      = Hover.tick { delay := d + 1, now := d, timers := [(u, d + 1)], calls := [] }
      from rfl, hfire]
    rw [List.foldl_cons, show ∀ s, Hover.stepReset s (Hover.HEvent.leave u)
        = Hover.leave s u from fun _ => rfl]
    rfl
  · show (Hover.leave s id).calls = s.calls
    unfold Hover.leave
    split_ifs <;> rfl
  · show (Hover.leave s id).calls = s.calls
    unfold Hover.leave
    split_ifs <;> rfl

/-- C8: a hover-enter followed by a hover-leave before the delay
elapses yields zero prefetch calls for the identifier in both
schedulers (the leave cancels the live timer), whatever happens
afterwards short of a fresh enter; once the delay fully elapses the
prefetch fires exactly once and a later leave does not affect it — no
leave event ever modifies the call log. -/
theorem C8_hover_cancel (delay k : Nat) (u : String) (rest : List Hover.HEvent)
    (hk : k < delay) (hrest : ∀ e ∈ rest, e ≠ Hover.HEvent.enter u) (hd : 1 ≤ delay) :
    hoverCancelled delay k u rest ∧ hoverFiredUndisturbed delay u :=
  ⟨hoverCancelledRun k delay hk rest hrest, hover_fired delay u hd⟩

/-- Witness for C8 at delay 2 with one intervening time unit. -/
theorem C8_hover_cancel_witness :
    (1 < 2 ∧ 1 ≤ 2) ∧ hoverCancelled 2 1 "x" [] ∧ hoverFiredUndisturbed 2 "x" :=
  ⟨⟨by decide, by decide⟩,
    (C8_hover_cancel 2 1 "x" [] (by decide) (by simp) (by decide)).1,
    (C8_hover_cancel 2 1 "x" [] (by decide) (by simp) (by decide)).2⟩

/-- C9: the connection gate returns `false` exactly when the save-data
flag is set or the effective tier is at or below 2g (`'slow-2g'` or
`'2g'`), and a missing `navigator.connection` defaults to `true`.  The
embedded `checkConnection` is a pure function of the environment — a
one-shot read with no side effects, stored once in
`this.shouldPrefetch`. -/
theorem C9_connection_gate (conn : Option Connection) :
    (checkConnection conn = false ↔
      ∃ c, conn = some c ∧
        (c.saveData = true ∨ c.effectiveType = "slow-2g" ∨ c.effectiveType = "2g")) ∧
    checkConnection none = true := by
  refine ⟨?_, rfl⟩
  cases conn with
  | none => simp [checkConnection]
  | some c =>
    unfold checkConnection
    dsimp only
    split_ifs with h1 h2
    · exact ⟨fun _ => ⟨c, rfl, Or.inl h1⟩, fun _ => rfl⟩
    · exact ⟨fun _ => ⟨c, rfl, Or.inr h2⟩, fun _ => rfl⟩
    · refine ⟨fun h => absurd h (by simp), ?_⟩
      rintro ⟨c', hc', hor⟩
      obtain rfl : c = c' := by injection hc'
      rcases hor with hor | hor | hor
      · exact absurd hor h1
      · exact absurd (Or.inl hor) h2
      · exact absurd (Or.inr hor) h2

/-- Witness for C9: a save-data connection and a 2g connection are
vetoed, no signal and a fast connection are permitted. -/
theorem C9_connection_gate_witness :
    checkConnection none = true ∧
    checkConnection (some { saveData := true, effectiveType := "4g" }) = false ∧
    checkConnection (some { saveData := false, effectiveType := "2g" }) = false ∧
    checkConnection (some { saveData := false, effectiveType := "4g" }) = true := by
  refine ⟨(C9_connection_gate none).2, ?_, ?_, by decide⟩
  · exact (C9_connection_gate _).1.mpr ⟨_, rfl, Or.inl rfl⟩
  · exact (C9_connection_gate _).1.mpr ⟨_, rfl, Or.inr (Or.inr rfl)⟩

/-- C10: for every options argument, evaluating the constructor's
options literal reaches the initializer of `instantNavigation`
(`options.instantNavigation !== tre`), reads the unbound identifier
`tre` and raises `ReferenceError`, so `new StaticPrefetcher(options)`
throws before `this.prefetched`, `this.cache`, the queue or the
counter are initialized and before `init()` runs — the static-prefetch
subsystem never initializes from this file. -/
theorem C10_constructor_throws (o : Static.CtorArg) :
    Static.construct Static.pageGlobals o
      = Except.error (Static.JsError.referenceError "tre") := by
  have htre : "tre" ∉ Static.pageGlobals := by decide
  unfold Static.construct Static.evalOptionsLiteral Static.evalIdent
  rw [if_neg htre]
  rfl

end Blog
